import Mathlib

/-!
Verification of the numerical experiment harness specified for the
`practical-scipy` integration scripts.  The repository consists of five
demonstration scripts which delegate all numerics to an external library
(scipy); the specification describes a thin harness around that delegate.
Pure algorithmic content (the uneven-interval composite Simpson rule,
iterated polynomial integration, the Gray-Scott right-hand side) is embedded
from the source; harness operations that exist only in the specification are
modelled from the spec and marked as such in their doc comments.

All arithmetic is over `ℚ`, making every definition executable and every
concrete evaluation decidable.
-/

namespace PracticalScipy

/-- Error taxonomy of the harness, from the specification's error-handling
design: malformed input, too-few/non-increasing samples, and delegate
non-convergence. -/
inductive HarnessError where
  | malformedProblem
  | insufficientSamplesError
  | convergenceFailure
  deriving DecidableEq, Repr

/-! ## Composite Simpson rule on possibly-unevenly-spaced samples

Embeds the algorithm of the external delegate `scipy.integrate.simpson`
(the Cartwright formulation for unequal intervals): consecutive sample
triples `(x0,x1,x2)` with widths `h0 = x1-x0`, `h1 = x2-x1` contribute
`(h0+h1)/6 * ((2 - h1/h0)*y0 + (h0+h1)^2/(h0*h1)*y1 + (2 - h0/h1)*y2)`. -/

/-- Contribution of one pair of adjacent intervals to the composite rule. -/
def simpsonPairTerm (x0 x1 x2 y0 y1 y2 : ℚ) : ℚ :=
  let h0 := x1 - x0
  let h1 := x2 - x1
  let hsum := h0 + h1
  hsum / 6 * ((2 - h1 / h0) * y0 + hsum * hsum / (h0 * h1) * y1 + (2 - h0 / h1) * y2)

/-- Sum of the pair contributions over successive interval pairs, as in the
delegate's basic composite loop (strides of two through the samples). -/
def simpsonPairs : List ℚ → List ℚ → ℚ
  | x0 :: x1 :: x2 :: xs, y0 :: y1 :: y2 :: ys =>
      simpsonPairTerm x0 x1 x2 y0 y1 y2 + simpsonPairs (x2 :: xs) (y2 :: ys)
  | _, _ => 0

/-- Correction the delegate applies to the final lone interval when the
number of samples is even (odd interval count): a parabola through the last
three samples, contributing `alpha*y[-1] + beta*y[-2] - eta*y[-3]`. -/
def simpsonLastCorrection (h0 h1 y0 y1 y2 : ℚ) : ℚ :=
  let alpha := (2 * h1 ^ 2 + 3 * h0 * h1) / (6 * (h1 + h0))
  let beta := (h1 ^ 2 + 3 * h0 * h1) / (6 * h0)
  let eta := h1 ^ 3 / (6 * h0 * (h0 + h1))
  alpha * y2 + beta * y1 - eta * y0

/-- Composite Simpson integration of sampled data, following the delegate:
an odd sample count is covered exactly by the pair terms; an even count uses
the pair terms on all but the final interval plus the last-interval
correction. -/
def simpson (x y : List ℚ) : ℚ :=
  if x.length % 2 = 1 then
    simpsonPairs x y
  else
    simpsonPairs (x.dropLast) (y.dropLast) +
      match x.reverse, y.reverse with
      | x2 :: x1 :: x0 :: _, y2 :: y1 :: y0 :: _ =>
          simpsonLastCorrection (x1 - x0) (x2 - x1) y0 y1 y2
      | _, _ => 0

/-- Modelled from the spec: `run_sampled_integration(x_samples, y_samples)`
(the harness operation is not implemented in the repository, whose script
calls the delegate directly).  It requires at least 3 samples with strictly
increasing `x_samples`, failing with `InsufficientSamplesError` before any
dispatch to the delegate; on well-formed input it dispatches to the
composite Simpson rule. -/
def run_sampled_integration (x y : List ℚ) : Except HarnessError ℚ :=
  if x.length < 3 ∨ ¬ x.Chain' (· < ·) then
    .error .insufficientSamplesError
  else
    .ok (simpson x y)

/-- The integrand of `integrate-using-samples.py`: `f1(x) = x ** 2`. -/
def f1 (x : ℚ) : ℚ := x ^ 2

/-- The second integrand of `integrate-using-samples.py`: `f2(x) = x ** 3`. -/
def f2 (x : ℚ) : ℚ := x ^ 3

/-- The sample abscissae of `integrate-using-samples.py`: `x = [1, 3, 4]`. -/
def sampleXs : List ℚ := [1, 3, 4]

/-! ## Exact polynomial integration

A small exact engine for univariate polynomials over `ℚ` (dense coefficient
lists, constant term first), used to state analytic integrals and to embed
the iterated quadrature of `general-multiple-integration.py` exactly. -/

/-- Evaluation of a dense coefficient list (constant term first). -/
def evalP (p : List ℚ) (t : ℚ) : ℚ :=
  p.foldr (fun c acc => c + t * acc) 0

/-- Divide each coefficient by its one-based position (antiderivative body). -/
def antiderivAux : List ℚ → ℚ → List ℚ
  | [], _ => []
  | c :: cs, i => c / i :: antiderivAux cs (i + 1)

/-- Coefficient list of the antiderivative with zero constant term. -/
def antiderivP (p : List ℚ) : List ℚ :=
  0 :: antiderivAux p 1

/-- Exact definite integral of a polynomial between rational bounds. -/
def defIntP (p : List ℚ) (a b : ℚ) : ℚ :=
  evalP (antiderivP p) b - evalP (antiderivP p) a

/-- Pointwise sum of coefficient lists (the shorter list is zero-padded). -/
def addP : List ℚ → List ℚ → List ℚ
  | [], q => q
  | p, [] => p
  | a :: as, b :: bs => (a + b) :: addP as bs

/-- Scale every coefficient by a constant. -/
def scaleP (c : ℚ) (p : List ℚ) : List ℚ :=
  p.map (fun a => c * a)

/-- Pointwise difference of coefficient lists. -/
def subP (p q : List ℚ) : List ℚ :=
  addP p (scaleP (-1) q)

/-- Product of coefficient lists (polynomial multiplication). -/
def mulP : List ℚ → List ℚ → List ℚ
  | [], _ => []
  | a :: as, q => addP (scaleP a q) (0 :: mulP as q)

/-! ## Bivariate polynomials and the two iterated-quadrature embeddings

`general-multiple-integration.py` computes the same triangle integral twice,
through `dblquad` and through `nquad`.  Both integrands are polynomial and
all bounds are affine, so the delegate calls are embedded as exact iterated
polynomial integration.  A bivariate polynomial is a coefficient list in the
inner integration variable whose coefficients are polynomials in the outer
variable. -/

/-- Antiderivative of a bivariate polynomial in its inner (main) variable:
prepend a zero coefficient and divide each coefficient polynomial by its
one-based position. -/
def antiderivBiAux : List (List ℚ) → ℚ → List (List ℚ)
  | [], _ => []
  | c :: cs, i => scaleP (1 / i) c :: antiderivBiAux cs (i + 1)

/-- Antiderivative in the inner variable, zero constant term. -/
def antiderivBi (p : List (List ℚ)) : List (List ℚ) :=
  [] :: antiderivBiAux p 1

/-- Evaluate a bivariate polynomial at a polynomial value of its inner
variable (Horner), producing a polynomial in the outer variable. -/
def evalBiAtPoly (p : List (List ℚ)) (q : List ℚ) : List ℚ :=
  p.foldr (fun c acc => addP c (mulP q acc)) []

/-- Exact inner integral of a bivariate polynomial between two
outer-variable-dependent polynomial bounds, as a polynomial in the outer
variable. -/
def innerIntBi (p : List (List ℚ)) (lo hi : List ℚ) : List ℚ :=
  subP (evalBiAtPoly (antiderivBi p) hi) (evalBiAtPoly (antiderivBi p) lo)

/-- The delegate `dblquad(func, a, b, gfun, hfun)` computes
`∫_a^b dq ∫_{gfun(q)}^{hfun(q)} func(p, q) dp`: `func` takes the inner
variable first and the bound functions take the outer variable.  Exact
embedding for polynomial data: `func` is bivariate (inner variable main),
`gfun`/`hfun` are polynomials in the outer variable. -/
def dblquadPoly (func : List (List ℚ)) (a b : ℚ) (gfun hfun : List ℚ) : ℚ :=
  defIntP (innerIntBi func gfun hfun) a b

/-- The symbolic integration variable, for feeding a bound function the
(not yet numeric) value of the variable enclosing it. -/
def varP : List ℚ := [0, 1]

/-- The delegate `nquad(func, ranges)` lists ranges innermost first and
evaluates them outermost first: the last range (a closed pair) is read with
no arguments, and the inner range function receives the fixed value of the
outer variable.  Exact two-variable embedding for polynomial data: the
inner bound function is applied to the symbolic outer variable `varP`. -/
def nquadPoly (func : List (List ℚ)) (range0 : List ℚ → List ℚ × List ℚ)
    (range1 : ℚ × ℚ) : ℚ :=
  defIntP (innerIntBi func (range0 varP).1 (range0 varP).2) range1.1 range1.2

/-- The `dblquad` integrand at line 13, `lambda x, y: x * y`.  Under the
delegate's calling convention the first parameter is the inner variable, so
this is inner·outer: coefficient `[0]` for inner^0 and `Y` for inner^1. -/
def dblquadIntegrand : List (List ℚ) := [[0], [0, 1]]

/-- The `nquad` integrand `f_n(x, y) = x * y`; `x` is listed first, hence
innermost: inner·outer, same representation. -/
def f_n : List (List ℚ) := [[0], [0, 1]]

/-- `bounds_y() = [0, 0.5]`: the outer range of the `nquad` call. -/
def bounds_y : ℚ × ℚ := (0, 1 / 2)

/-- `bounds_x(y) = [0, 1 - 2*y]`: the inner range function of the `nquad`
call, receiving the (symbolic) outer variable. -/
def bounds_x (q : List ℚ) : List ℚ × List ℚ :=
  ([0], subP [1] (scaleP 2 q))

/-- `area`, the `dblquad` run at line 13: integrand `x*y`, outer interval
`[0, 0.5]`, inner bounds `0` to `1 - 2·outer`. -/
def area : ℚ :=
  dblquadPoly dblquadIntegrand 0 (1 / 2) [0] [1, -2]

/-- The `nquad` run at line 38 over the same triangle. -/
def area_nquad : ℚ :=
  nquadPoly f_n bounds_x bounds_y

/-- C4: over the triangular region `{0 ≤ y ≤ 1/2, 0 ≤ x ≤ 1 - 2y}` with
integrand `x*y`, the `dblquad` nesting (outer variable with interval
`[0, 1/2]`, variable inner bound `1 - 2·outer`) and the `nquad` nesting
(bound-function list `[bounds_x, bounds_y]`) return the same value, namely
`1/96`. -/
theorem dblquad_nquad_same_value :
    area = area_nquad ∧ area_nquad = 1 / 96 := by
  constructor
  · norm_num [area, area_nquad, dblquadPoly, nquadPoly, dblquadIntegrand, f_n,
      bounds_x, bounds_y, varP, innerIntBi, antiderivBi, antiderivBiAux,
      evalBiAtPoly, addP, subP, scaleP, mulP, defIntP, antiderivP, antiderivAux,
      evalP]
  · norm_num [area_nquad, nquadPoly, f_n, bounds_x, bounds_y, varP, innerIntBi,
      antiderivBi, antiderivBiAux, evalBiAtPoly, addP, subP, scaleP, mulP,
      defIntP, antiderivP, antiderivAux, evalP]

/-! ## The nquad evaluation recursion

The delegate's `nquad` recursion over an abstract one-dimensional
integration operator, embedded to settle the bound-argument routing claim:
ranges are listed innermost first (as the caller writes them), the
recursion consumes them outermost first, and a range function is applied to
the list of already-fixed values of the variables enclosing it (innermost
of those first).  The integrand finally receives all fixed values,
innermost variable first. -/

/-- One level of the recursion: take the next (outermost remaining) range,
evaluate its bounds at the fixed values accumulated so far, and integrate
the rest with the new value prepended. -/
def nquadAux (integ : (ℚ → ℚ) → ℚ → ℚ → ℚ) (func : List ℚ → ℚ) :
    List (List ℚ → ℚ × ℚ) → List ℚ → ℚ
  | [], args => func args
  | r :: rs, args =>
      integ (fun t => nquadAux integ func rs (t :: args)) (r args).1 (r args).2

/-- `nquad(func, ranges)` with ranges listed innermost first, as the
delegate's recursive evaluator computes it. -/
def nquadRec (integ : (ℚ → ℚ) → ℚ → ℚ → ℚ) (func : List ℚ → ℚ)
    (ranges : List (List ℚ → ℚ × ℚ)) : ℚ :=
  nquadAux integ func ranges.reverse []

/-- C5: in the two-variable `nquad` evaluation, nesting order determines
exactly which arguments each bound function receives: for every 1-D
integrator, integrand and bound functions, the recursion applied to the
range list `[inner, outer]` evaluates the outer bounds with no fixed
values, applies the inner bound function exactly to the fixed outer value,
and hands the integrand the inner value first. -/
theorem nquad_bound_argument_routing
    (integ : (ℚ → ℚ) → ℚ → ℚ → ℚ) (func : ℚ → ℚ → ℚ)
    (bx : ℚ → ℚ × ℚ) (b_y : ℚ × ℚ) :
    nquadRec integ (fun args => func (args.headD 0) (args.tail.headD 0))
        [fun args => bx (args.headD 0), fun _ => b_y] =
      integ (fun yv => integ (fun xv => func xv yv) (bx yv).1 (bx yv).2)
        b_y.1 b_y.2 := by
  simp [nquadRec, nquadAux]

/-! ## ODE harness operation and comparison -/

/-- An ODE solver result: output times and the solution column at each. -/
structure ODEResult where
  t : List ℚ
  y : List (List ℚ)
  deriving DecidableEq, Repr

/-- Modelled from the spec: `run_ode(problem, initial_state, time_span,
config)` (the harness operation is not implemented in the repository, whose
script calls the delegate `solve_ivp` directly).  The adaptive delegate is
abstracted by the step times it chooses and its dense interpolant.  With a
caller-supplied evaluation grid the solution is reported at exactly the
grid points (the delegate rejects grid points outside the time span);
without one the solver-chosen times are reported. -/
def run_ode (solverTimes : List ℚ) (interp : ℚ → List ℚ)
    (t_span : ℚ × ℚ) (t_eval : Option (List ℚ)) :
    Except HarnessError ODEResult :=
  match t_eval with
  | none => .ok ⟨solverTimes, solverTimes.map interp⟩
  | some grid =>
      if grid.all (fun p => decide (t_span.1 ≤ p ∧ p ≤ t_span.2)) then
        .ok ⟨grid, grid.map interp⟩
      else
        .error .malformedProblem

/-- C6: a `run_ode` call supplied with an evaluation grid inside the time
span reports the solution at exactly the supplied grid points (the output
time array is the caller's grid), while a call without a grid reports the
solver-chosen output times. -/
theorem run_ode_output_times (solverTimes : List ℚ) (interp : ℚ → List ℚ)
    (t_span : ℚ × ℚ) (grid : List ℚ)
    (h : ∀ p ∈ grid, t_span.1 ≤ p ∧ p ≤ t_span.2) :
    (∃ r, run_ode solverTimes interp t_span (some grid) = .ok r ∧ r.t = grid) ∧
    (∃ r, run_ode solverTimes interp t_span none = .ok r ∧
      r.t = solverTimes) := by
  refine ⟨⟨⟨grid, grid.map interp⟩, ?_, rfl⟩, ⟨⟨solverTimes, solverTimes.map interp⟩, rfl, rfl⟩⟩
  have hall : grid.all (fun p => decide (t_span.1 ≤ p ∧ p ≤ t_span.2)) = true := by
    rw [List.all_eq_true]
    intro p hp
    exact decide_eq_true (h p hp)
  simp only [run_ode]
  rw [if_pos hall]

theorem run_ode_output_times_witness :
    (∀ p ∈ [(0 : ℚ), 2, 4], (0 : ℚ) ≤ p ∧ p ≤ 4) ∧
    ((∃ r, run_ode [0, 1, 4] (fun _ => [0, 0]) (0, 4) (some [0, 2, 4]) =
        .ok r ∧ r.t = [0, 2, 4]) ∧
     (∃ r, run_ode [0, 1, 4] (fun _ => [0, 0]) (0, 4) none = .ok r ∧
        r.t = [0, 1, 4])) :=
  ⟨by decide,
   run_ode_output_times [0, 1, 4] (fun _ => [0, 0]) (0, 4) [0, 2, 4]
     (by decide)⟩

/-- An expected value together with the comparison tolerance. -/
structure ReferenceCheck where
  expected : ℚ
  tol : ℚ
  deriving DecidableEq, Repr

/-- A comparison outcome: pass/fail plus the magnitude of the deviation. -/
structure ComparisonOutcome where
  passed : Bool
  deviation : ℚ
  deriving DecidableEq, Repr

/-- Modelled from the spec: `compare(result, reference_check)` (the scripts
compute deviations inline, e.g. `abs(result[0] - I)` and `np.allclose`,
and only print them).  The deviation is computed and pass/fail is reported
as data through the harness's fallible interface; a mismatch is an outcome,
not an error. -/
def compare (result : ℚ) (rc : ReferenceCheck) :
    Except HarnessError ComparisonOutcome :=
  .ok { passed := decide (|result - rc.expected| ≤ rc.tol),
        deviation := |result - rc.expected| }

/-- C9: for every result and reference, `compare` never raises: it returns
an outcome value carrying the deviation, with pass/fail recorded as data —
also (in particular) when the comparison mismatches. -/
theorem compare_never_raises (result : ℚ) (rc : ReferenceCheck) :
    ∃ o, compare result rc = .ok o ∧
      o.deviation = |result - rc.expected| ∧
      o.passed = decide (o.deviation ≤ rc.tol) := by
  exact ⟨_, rfl, rfl, rfl⟩

/-! ## Which expressions the solvers evaluate

To settle where the special-function reference interface is used, the
integrands / right-hand sides the scripts hand to the solvers, and the
expressions used only to build reference values, are embedded as a small
expression syntax in which special-function calls are a distinguished
constructor. -/

/-- The special functions the scripts import from the reference interface. -/
inductive SpecialFn where
  | jv
  | gamma
  | airy
  | fresnel
  | expn
  deriving DecidableEq, Repr

/-- Scalar expressions occurring in the scripts.  `var` indexes the
arguments of the enclosing lambda/def; `special fn p a` is a call of the
special-function interface with fixed parameter `p` (order, degree, or
selected tuple component) and argument `a`; `quadOf` marks a nested
adaptive-quadrature call used as a value. -/
inductive FnExpr where
  | var : Nat → FnExpr
  | const : ℚ → FnExpr
  | pi : FnExpr
  | add : FnExpr → FnExpr → FnExpr
  | sub : FnExpr → FnExpr → FnExpr
  | mul : FnExpr → FnExpr → FnExpr
  | div : FnExpr → FnExpr → FnExpr
  | neg : FnExpr → FnExpr
  | pow : FnExpr → Nat → FnExpr
  | exp : FnExpr → FnExpr
  | sqrt : FnExpr → FnExpr
  | cos : FnExpr → FnExpr
  | sin : FnExpr → FnExpr
  | quadOf : FnExpr → FnExpr
  | special : SpecialFn → ℚ → FnExpr → FnExpr
  deriving DecidableEq, Repr

/-- Whether an expression invokes the special-function interface. -/
def usesSpecial : FnExpr → Bool
  | .var _ => false
  | .const _ => false
  | .pi => false
  | .add a b => usesSpecial a || usesSpecial b
  | .sub a b => usesSpecial a || usesSpecial b
  | .mul a b => usesSpecial a || usesSpecial b
  | .div a b => usesSpecial a || usesSpecial b
  | .neg a => usesSpecial a
  | .pow a _ => usesSpecial a
  | .exp a => usesSpecial a
  | .sqrt a => usesSpecial a
  | .cos a => usesSpecial a
  | .sin a => usesSpecial a
  | .quadOf a => usesSpecial a
  | .special _ _ _ => true

/-- One dispatched experiment: the expressions the solver evaluates (the
integrand, or the right-hand-side / Jacobian entries) and the expressions
used only to construct the expected reference value.  Problem data that the
solver does not evaluate as a function (e.g. the Airy initial state built
with `gamma`) is outside both lists, as the claim quantifies over
integrands / right-hand sides. -/
structure Experiment where
  name : String
  problem : List FnExpr
  reference : List FnExpr
  deriving DecidableEq, Repr

/-- `lambda x: special.jv(2.5, x)`, the integrand handed to `quad` at
`general-integration.py` line 6. -/
def besselIntegrand : FnExpr := .special .jv (5 / 2) (.var 0)

/-- The closed-form reference `I` of `general-integration.py` lines 9-14:
`sqrt(2/pi) * (18/27*sqrt(2)*cos(4.5) - 4/27*sqrt(2)*sin(4.5)
+ sqrt(2*pi)*fresnel(3/sqrt(pi))[0])`. -/
def besselClosedForm : FnExpr :=
  .mul (.sqrt (.div (.const 2) .pi))
    (.add
      (.sub
        (.mul (.mul (.div (.const 18) (.const 27)) (.sqrt (.const 2)))
          (.cos (.const (9 / 2))))
        (.mul (.mul (.div (.const 4) (.const 27)) (.sqrt (.const 2)))
          (.sin (.const (9 / 2)))))
      (.mul (.sqrt (.mul (.const 2) .pi))
        (.special .fresnel 0 (.div (.const 3) (.sqrt .pi)))))

/-- `simple_integrand(x, a, b) = a*x**2 + b` at the supplied `a=2, b=1`. -/
def simple_integrand : FnExpr :=
  .add (.mul (.const 2) (.pow (.var 0) 2)) (.const 1)

/-- `integrand(t, n, x) = exp(-x*t) / t**n` (variables `t = var 0`,
`x = var 1`) at degree `n`; used by the `expint` quadratures and by the
iterated integrals of `general-multiple-integration.py`. -/
def expIntegrand (n : Nat) : FnExpr :=
  .div (.exp (.neg (.mul (.var 1) (.var 0)))) (.pow (.var 0) n)

/-- The `x*y` integrand of the triangle integrals (`lambda x, y: x * y`
and `f_n`). -/
def xyIntegrand : FnExpr := .mul (.var 0) (.var 1)

/-- The ODE right-hand side `func(t, y) = [t*y[1], y[0]]` (variables
`t = var 0`, `y[0] = var 1`, `y[1] = var 2`). -/
def odeRhs : List FnExpr := [.mul (.var 0) (.var 2), .var 1]

/-- The analytic Jacobian `gradient(t, y) = [[0, t], [1, 0]]`, row-major. -/
def odeJacobian : List FnExpr := [.const 0, .var 0, .const 1, .const 0]

/-- The Airy reference `special.airy(t)[0]` of `differential-equations.py`. -/
def airyReference : FnExpr := .special .airy 0 (.var 0)

/-- `G(u, v, f, k) = f*(1-u) - u*v**2` at `f = 0.024` (`u = var 0`,
`v = var 1`). -/
def G_expr : FnExpr :=
  .sub (.mul (.const (3 / 125)) (.sub (.const 1) (.var 0)))
    (.mul (.var 0) (.pow (.var 1) 2))

/-- `H(u, v, f, k) = -(f+k)*v + u*v**2` at `f = 0.024`, `k = 0.055`. -/
def H_expr : FnExpr :=
  .add (.mul (.neg (.add (.const (3 / 125)) (.const (11 / 200)))) (.var 1))
    (.mul (.var 0) (.pow (.var 1) 2))

/-- The Gray-Scott right-hand-side entries for the `u` species at
`du = 0.01`, `dx = 0.025`: left endpoint, interior, right endpoint
(`var 2` / `var 3` are the left / right neighbours of the species value). -/
def grayscottRhsU : List FnExpr :=
  [.add G_expr (.div (.mul (.const (1 / 100))
      (.add (.mul (.const (-2)) (.var 0)) (.mul (.const 2) (.var 3))))
      (.pow (.const (1 / 40)) 2)),
   .add G_expr (.div (.mul (.const (1 / 100))
      (.add (.sub (.var 3) (.mul (.const 2) (.var 0))) (.var 2)))
      (.pow (.const (1 / 40)) 2)),
   .add G_expr (.div (.mul (.const (1 / 100))
      (.add (.mul (.const (-2)) (.var 0)) (.mul (.const 2) (.var 2))))
      (.pow (.const (1 / 40)) 2))]

/-- The Gray-Scott right-hand-side entries for the `v` species at
`dv = 0.005`, `dx = 0.025` (`var 4` / `var 5` are the neighbours of `v`). -/
def grayscottRhsV : List FnExpr :=
  [.add H_expr (.div (.mul (.const (1 / 200))
      (.add (.mul (.const (-2)) (.var 1)) (.mul (.const 2) (.var 5))))
      (.pow (.const (1 / 40)) 2)),
   .add H_expr (.div (.mul (.const (1 / 200))
      (.add (.sub (.var 5) (.mul (.const 2) (.var 1))) (.var 4)))
      (.pow (.const (1 / 40)) 2)),
   .add H_expr (.div (.mul (.const (1 / 200))
      (.add (.mul (.const (-2)) (.var 1)) (.mul (.const 2) (.var 4))))
      (.pow (.const (1 / 40)) 2))]

/-- The Bessel quadrature experiment of `general-integration.py` lines
6-16: the integrand dispatched to `quad` is itself the special function
`J_2.5`. -/
def besselQuadExperiment : Experiment :=
  { name := "bessel-quad"
    problem := [besselIntegrand]
    reference := [besselClosedForm] }

/-- Every experiment dispatched by the five scripts, with the expressions
its solver evaluates and the expressions used only for its reference
value. -/
def experiments : List Experiment :=
  [besselQuadExperiment,
   { name := "simple-quad", problem := [simple_integrand], reference := [] },
   { name := "expint-quad", problem := [expIntegrand 3],
     reference := [.special .expn 3 (.var 0)] },
   { name := "expint-double-quad", problem := [.quadOf (expIntegrand 3)],
     reference := [.const (1 / 3)] },
   { name := "dblquad-expint",
     problem := [expIntegrand 4, expIntegrand 3, expIntegrand 2],
     reference := [] },
   { name := "dblquad-triangle", problem := [xyIntegrand], reference := [] },
   { name := "nquad-expint", problem := [expIntegrand 5], reference := [] },
   { name := "nquad-triangle", problem := [xyIntegrand], reference := [] },
   { name := "sampled-simpson", problem := [.pow (.var 0) 2, .pow (.var 0) 3],
     reference := [] },
   { name := "airy-ode", problem := odeRhs ++ odeJacobian,
     reference := [airyReference] },
   { name := "grayscott-ode", problem := grayscottRhsU ++ grayscottRhsV,
     reference := [] }]

/-- C7 counterexample: the claim "for every dispatched problem, its
integrand / right-hand side does not invoke the special-function reference
interface" is false on the code: the Bessel quadrature experiment is
dispatched and its integrand is the special function `J_2.5` itself. -/
theorem special_function_is_a_dispatched_integrand :
    besselQuadExperiment ∈ experiments ∧
    besselQuadExperiment.problem.any usesSpecial = true := by
  exact ⟨List.mem_cons_self _ _, by decide⟩

/-- C7 (amended): with the sole exception of the Bessel quadrature
experiment — whose integrand is the special function `J_2.5` itself —
closed-form special functions appear only in reference expressions: every
other dispatched problem's integrand / right-hand side is free of
special-function calls. -/
theorem special_functions_reference_only_outside_bessel :
    (experiments.all fun e =>
      e.name == "bessel-quad" || e.problem.all (fun p => !usesSpecial p)) =
      true := by
  decide

/-! ## The Gray-Scott right-hand side

`grayscott1d(y, t, f, k, du, dv, dx)` of `banded-jacobian-matrix.py` reads
the interleaved species vectors `u = y[::2]` and `v = y[1::2]` and fills a
freshly allocated output `dydt` through its interleaved views `dudt`,
`dvdt`, handling endpoints and interior separately.  The embedding returns
the (untouched) input vector together with the output, so the frame
property is visible; `none` corresponds to the index / shape errors the
array operations raise when `y` has fewer than 4 entries or odd length
(then `u[1]`, `v[1]`, or a slice assignment of mismatched shape fails). -/

/-- Every other element of a list, starting with the first (`l[::2]`). -/
def everyOther : List ℚ → List ℚ
  | [] => []
  | [a] => [a]
  | a :: _ :: rest => a :: everyOther rest

/-- Three-list zip, truncating at the shortest list. -/
def zipWith3Q (f : ℚ → ℚ → ℚ → ℚ) : List ℚ → List ℚ → List ℚ → List ℚ
  | a :: as, b :: bs, c :: cs => f a b c :: zipWith3Q f as bs cs
  | [], _, _ => []
  | _ :: _, [], _ => []
  | _ :: _, _ :: _, [] => []

/-- `np.diff(l, 2)`: second differences `l[i+2] - 2*l[i+1] + l[i]`. -/
def secondDiff (l : List ℚ) : List ℚ :=
  zipWith3Q (fun x2 x1 x0 => x2 - 2 * x1 + x0) (l.drop 2) (l.drop 1) l

/-- Interleave two lists starting with the first (`dydt[::2]` and
`dydt[1::2]` views of a single output vector). -/
def interleave : List ℚ → List ℚ → List ℚ
  | a :: as, b :: bs => a :: b :: interleave as bs
  | [], bs => bs
  | a :: as, [] => a :: as

/-- `G(u, v, f, k) = f * (1 - u) - u * v ** 2`. -/
def G (u v f k : ℚ) : ℚ := f * (1 - u) - u * v ^ 2

/-- `H(u, v, f, k) = -(f + k) * v + u * v ** 2`. -/
def H (u v f k : ℚ) : ℚ := -(f + k) * v + u * v ^ 2

/-- The `dudt` view of the output: reaction term plus diffusion, with the
two endpoints computed from their single neighbour and the interior from
second differences. -/
def grayscottDudt (u v : List ℚ) (f k du dx : ℚ) : List ℚ :=
  (G (u.headD 0) (v.headD 0) f k
      + du * (-2 * u.headD 0 + 2 * u.getD 1 0) / dx ^ 2) ::
    (zipWith3Q (fun ui vi d2 => G ui vi f k + du * d2 / dx ^ 2)
        (u.drop 1) (v.drop 1) (secondDiff u) ++
      [G (u.getLastD 0) (v.getLastD 0) f k
        + du * (-2 * u.getLastD 0 + 2 * u.dropLast.getLastD 0) / dx ^ 2])

/-- The `dvdt` view of the output, analogously with `H` and `dv`. -/
def grayscottDvdt (u v : List ℚ) (f k dv dx : ℚ) : List ℚ :=
  (H (u.headD 0) (v.headD 0) f k
      + dv * (-2 * v.headD 0 + 2 * v.getD 1 0) / dx ^ 2) ::
    (zipWith3Q (fun ui vi d2 => H ui vi f k + dv * d2 / dx ^ 2)
        (u.drop 1) (v.drop 1) (secondDiff v) ++
      [H (u.getLastD 0) (v.getLastD 0) f k
        + dv * (-2 * v.getLastD 0 + 2 * v.dropLast.getLastD 0) / dx ^ 2])

/-- The Gray-Scott right-hand side; see the section comment for the `none`
cases and the meaning of the returned pair. -/
def grayscott1d (y : List ℚ) (t f k du dv dx : ℚ) :
    Option (List ℚ × List ℚ) :=
  if 2 ≤ (everyOther y).length ∧
      (everyOther y).length = (everyOther y.tail).length then
    some (y, interleave
      (grayscottDudt (everyOther y) (everyOther y.tail) f k du dx)
      (grayscottDvdt (everyOther y) (everyOther y.tail) f k dv dx))
  else
    none

theorem everyOther_length : ∀ l : List ℚ,
    (everyOther l).length = (l.length + 1) / 2
  | [] => rfl
  | [_] => by simp [everyOther]
  | _ :: _ :: rest => by
      simp only [everyOther, List.length_cons, everyOther_length rest]
      omega

theorem zipWith3Q_length (f : ℚ → ℚ → ℚ → ℚ) : ∀ as bs cs : List ℚ,
    (zipWith3Q f as bs cs).length = min (min as.length bs.length) cs.length
  | a :: as, b :: bs, c :: cs => by
      simp only [zipWith3Q, List.length_cons, zipWith3Q_length f as bs cs]
      omega
  | [], _, _ => by simp [zipWith3Q]
  | _ :: _, [], _ => by simp [zipWith3Q]
  | _ :: _, _ :: _, [] => by simp [zipWith3Q]

theorem interleave_length : ∀ as bs : List ℚ,
    (interleave as bs).length = as.length + bs.length
  | a :: as, b :: bs => by
      simp only [interleave, List.length_cons, interleave_length as bs]
      omega
  | [], bs => by simp [interleave]
  | _ :: _, [] => by simp [interleave]

theorem secondDiff_length (l : List ℚ) :
    (secondDiff l).length = l.length - 2 := by
  simp only [secondDiff, zipWith3Q_length, List.length_drop]
  omega

theorem grayscottDudt_length (u v : List ℚ) (f k du dx : ℚ)
    (h : 2 ≤ u.length) (h' : u.length = v.length) :
    (grayscottDudt u v f k du dx).length = u.length := by
  simp only [grayscottDudt, List.length_cons, List.length_append,
    zipWith3Q_length, secondDiff_length, List.length_drop,
    List.length_singleton, List.length_nil]
  omega

theorem grayscottDvdt_length (u v : List ℚ) (f k dv dx : ℚ)
    (h : 2 ≤ u.length) (h' : u.length = v.length) :
    (grayscottDvdt u v f k dv dx).length = v.length := by
  simp only [grayscottDvdt, List.length_cons, List.length_append,
    zipWith3Q_length, secondDiff_length, List.length_drop,
    List.length_singleton, List.length_nil]
  omega

/-- C10 counterexample: the frame/shape claim quantified over every input
state vector is false on the code: on the two-entry state `[1, 1]` (with
the script's parameter values) `grayscott1d` fails — the source raises an
index error at `u[1]` — instead of returning an output of the input's
length. -/
theorem grayscott1d_fails_on_short_state :
    grayscott1d [1, 1] 0 (3 / 125) (11 / 200) (1 / 100) (1 / 200) (1 / 40) =
      none := by
  rfl

/-- C10 (amended): for every input state vector of even length at least 4 —
the shapes on which the source's array operations are defined — and every
parameter set, `grayscott1d` leaves the input state unmodified, writing
only into a freshly built output, and returns an output of the same length
as the input. -/
theorem grayscott1d_preserves_state_and_length (y : List ℚ)
    (t f k du dv dx : ℚ) (heven : y.length % 2 = 0) (hlen : 4 ≤ y.length) :
    ∃ dydt, grayscott1d y t f k du dv dx = some (y, dydt) ∧
      dydt.length = y.length := by
  have hu := everyOther_length y
  have hv := everyOther_length y.tail
  have htail : y.tail.length = y.length - 1 := List.length_tail y
  have hcond : 2 ≤ (everyOther y).length ∧
      (everyOther y).length = (everyOther y.tail).length := by
    constructor <;> omega
  refine ⟨interleave
      (grayscottDudt (everyOther y) (everyOther y.tail) f k du dx)
      (grayscottDvdt (everyOther y) (everyOther y.tail) f k dv dx), ?_, ?_⟩
  · simp only [grayscott1d]
    rw [if_pos hcond]
  · rw [interleave_length,
      grayscottDudt_length _ _ _ _ _ _ hcond.1 hcond.2,
      grayscottDvdt_length _ _ _ _ _ _ hcond.1 hcond.2]
    omega

theorem grayscott1d_preserves_state_and_length_witness :
    (([(1 : ℚ), 2, 3, 4]).length % 2 = 0 ∧ 4 ≤ ([(1 : ℚ), 2, 3, 4]).length) ∧
    ∃ dydt,
      grayscott1d [1, 2, 3, 4] 0 (3 / 125) (11 / 200) (1 / 100) (1 / 200)
          (1 / 40) = some ([1, 2, 3, 4], dydt) ∧
      dydt.length = ([(1 : ℚ), 2, 3, 4]).length :=
  ⟨⟨by decide, by decide⟩,
   grayscott1d_preserves_state_and_length [1, 2, 3, 4] 0 (3 / 125) (11 / 200)
     (1 / 100) (1 / 200) (1 / 40) (by decide) (by decide)⟩

/-- C1: every call of `run_sampled_integration` with fewer than 3 samples or
with `x_samples` not strictly increasing fails with
`InsufficientSamplesError`; the malformed input is rejected before dispatch,
so no Simpson value is produced. -/
theorem run_sampled_integration_rejects_malformed (x y : List ℚ)
    (h : x.length < 3 ∨ ¬ x.Chain' (· < ·)) :
    run_sampled_integration x y = .error .insufficientSamplesError := by
  unfold run_sampled_integration
  rw [if_pos h]

theorem run_sampled_integration_rejects_malformed_witness :
    (([(1 : ℚ), 2]).length < 3 ∨ ¬ ([(1 : ℚ), 2]).Chain' (· < ·)) ∧
    run_sampled_integration [1, 2] [1, 4] = .error .insufficientSamplesError :=
  ⟨Or.inl (by decide),
   run_sampled_integration_rejects_malformed [1, 2] [1, 4] (Or.inl (by decide))⟩

/-- C3: `run_sampled_integration` on `y = x^2` sampled at the non-uniform
points `x = [1, 3, 4]` returns exactly the analytic integral
`∫ x^2 dx` from 1 to 4, namely `63/3 = 21` (the quadratic does not exceed
the rule's exactness degree, so the result is exact, not merely within
tolerance). -/
theorem run_sampled_integration_exact_on_quadratic :
    run_sampled_integration sampleXs (sampleXs.map f1) =
      .ok (defIntP [0, 0, 1] 1 4) ∧
    defIntP [0, 0, 1] 1 4 = 63 / 3 := by
  constructor
  · norm_num [run_sampled_integration, simpson, simpsonPairs, simpsonPairTerm,
      defIntP, antiderivP, antiderivAux, evalP, sampleXs, f1, List.chain'_cons]
  · norm_num [defIntP, antiderivP, antiderivAux, evalP]

end PracticalScipy
